import Mathlib

/-!
Verification of the VectorCAST Unit Test Report Generator
(`Unit_Test_Report_generator.py`).

The heart of the program is `_extract_function_names` (lines 180-218),
which scans a generated test-script file line by line and, on each line,
runs `re.search(r'\s*-- Subprogram:\s*(\S+)', line, re.IGNORECASE)`,
collecting `group(1)` of every successful search.  The definitions below
embed that scan, the surrounding file handling (create a scratch copy,
read it back, report a missing source file), the tolerant byte decoding
used by `open(..., errors='ignore')`, and the post-generation file moves
of `_generate_main_test_script`, `_generate_individual_test_scripts` and
`_organize_results`.

Lines of text are embedded as `List Char`, file contents read from disk
as `List Nat` byte sequences or as already-decoded `List Char`, and the
working directory as an association list from file names to contents.
-/

/-- Python's `\s` character class, restricted to the ASCII range that the
generated test scripts use: space, tab, newline, carriage return,
vertical tab and form feed. -/
def pySpace (c : Char) : Bool :=
  c.toNat = 32 || c.toNat = 9 || c.toNat = 10 || c.toNat = 13 ||
  c.toNat = 11 || c.toNat = 12

/-- ASCII lower-casing, the equivalence used by `re.IGNORECASE` on the
ASCII marker text of the pattern. -/
def lowerChar (c : Char) : Char :=
  if 65 ≤ c.toNat ∧ c.toNat ≤ 90 then Char.ofNat (c.toNat + 32) else c

/-- The literal marker text of the pattern `\s*-- Subprogram:\s*(\S+)`
(line 204 of the source). -/
def subprogramMarker : List Char := "-- Subprogram:".data

/-- The marker lowered once, against which each line position is compared
case-insensitively. -/
def markerLower : List Char := subprogramMarker.map lowerChar

/-- `markerMatch pat l` holds when the lowered text `pat` is a prefix of
`l` up to ASCII case. -/
def markerMatch : List Char → List Char → Bool
  | [], _ => true
  | _ :: _, [] => false
  | p :: ps, c :: cs => (lowerChar c == p) && markerMatch ps cs

/-- Embedding of `re.search(r'\s*-- Subprogram:\s*(\S+)', line,
re.IGNORECASE)` followed by `match.group(1)` (lines 204-206): scan for
the leftmost position where the marker matches case-insensitively and a
non-whitespace token follows after optional whitespace; return that
token.  The leading `\s*` of the pattern does not change which token is
captured, because a successful search anchored before whitespace matches
the same marker occurrence. -/
def searchSubprogram : List Char → Option (List Char)
  | [] => none
  | c :: cs =>
    if markerMatch markerLower (c :: cs) then
      match (List.drop markerLower.length (c :: cs)).dropWhile pySpace with
      | [] => searchSubprogram cs
      | t :: ts => some (List.takeWhile (fun x => !pySpace x) (t :: ts))
    else searchSubprogram cs

/-- The loop body of `_extract_function_names` (lines 201-207):
`function_names.append(match.group(1))` for each line, in file order. -/
def extractFunctionNamesAux (acc : List (List Char)) :
    List (List Char) → List (List Char)
  | [] => acc
  | l :: ls =>
    match searchSubprogram l with
    | some n => extractFunctionNamesAux (acc ++ [n]) ls
    | none => extractFunctionNamesAux acc ls

/-- The full per-file extraction over an already-decoded list of lines. -/
def extractFunctionNames (ls : List (List Char)) : List (List Char) :=
  extractFunctionNamesAux [] ls

/-- The characterisation of a successful search: the line decomposes as
some prefix, then text equal to the marker up to ASCII case, then a
remainder that still holds a non-whitespace character after optional
whitespace. -/
def markerTokenOccurs (l : List Char) : Prop :=
  ∃ p m q, l = p ++ m ++ q ∧ m.map lowerChar = markerLower ∧
    q.dropWhile pySpace ≠ []

/-! ### Basic facts about `lowerChar`, `pySpace` and `markerMatch` -/

theorem toNat_ofNat_valid {n : Nat} (h : n < 55296) :
    (Char.ofNat n).toNat = n := by
  simp [Char.ofNat, Char.toNat, Nat.isValidChar, UInt32.isValidChar, h,
    Char.ofNatAux, UInt32.toNat, UInt32.ofNatCore]

theorem pySpace_eq_false_of_ge {c : Char} (h : 65 ≤ c.toNat) :
    pySpace c = false := by
  simp only [pySpace, Bool.or_eq_false_iff, decide_eq_false_iff_not]
  omega

theorem lowerChar_of_space {c : Char} (h : pySpace c = true) :
    lowerChar c = c := by
  simp only [pySpace, Bool.or_eq_true, decide_eq_true_eq] at h
  unfold lowerChar
  rw [if_neg]
  omega

theorem pySpace_lowerChar (c : Char) : pySpace (lowerChar c) = pySpace c := by
  unfold lowerChar
  by_cases hc : 65 ≤ c.toNat ∧ c.toNat ≤ 90
  · rw [if_pos hc]
    have h1 : (Char.ofNat (c.toNat + 32)).toNat = c.toNat + 32 :=
      toNat_ofNat_valid (by omega)
    rw [pySpace_eq_false_of_ge (by omega : (65:Nat) ≤ c.toNat),
      pySpace_eq_false_of_ge (by rw [h1]; omega)]
  · rw [if_neg hc]

theorem markerLower_eq :
    markerLower =
      ['-', '-', ' ', 's', 'u', 'b', 'p', 'r', 'o', 'g', 'r', 'a', 'm', ':'] := by
  decide

theorem markerMatch_of_map {m ps : List Char} (h : m.map lowerChar = ps)
    (r : List Char) : markerMatch ps (m ++ r) = true := by
  induction m generalizing ps with
  | nil => subst h; rfl
  | cons c m ih =>
    subst h
    simp only [List.map_cons, List.cons_append, markerMatch, beq_self_eq_true,
      Bool.true_and]
    exact ih rfl

theorem markerMatch_decomp {ps l : List Char} (h : markerMatch ps l = true) :
    ∃ m r, l = m ++ r ∧ m.map lowerChar = ps := by
  induction ps generalizing l with
  | nil => exact ⟨[], l, rfl, rfl⟩
  | cons p ps ih =>
    cases l with
    | nil => simp [markerMatch] at h
    | cons c cs =>
      simp only [markerMatch, Bool.and_eq_true, beq_iff_eq] at h
      obtain ⟨m, r, hl, hm⟩ := ih h.2
      exact ⟨c :: m, r, by simp [hl], by simp [hm, h.1]⟩

theorem length_of_map_markerLower {m : List Char}
    (h : m.map lowerChar = markerLower) : m.length = markerLower.length := by
  rw [← h, List.length_map]

theorem dropWhile_append_all {s r : List Char}
    (h : ∀ c ∈ s, pySpace c = true) :
    List.dropWhile pySpace (s ++ r) = List.dropWhile pySpace r := by
  induction s with
  | nil => rfl
  | cons c s ih =>
    rw [List.cons_append, List.dropWhile_cons]
    simp only [h c (List.mem_cons_self c s)]
    exact ih (fun x hx => h x (List.mem_cons_of_mem c hx))

theorem takeWhile_token {t r : List Char} (ht : ∀ c ∈ t, pySpace c = false)
    (hr : r = [] ∨ ∃ c r2, r = c :: r2 ∧ pySpace c = true) :
    List.takeWhile (fun x => !pySpace x) (t ++ r) = t := by
  induction t with
  | nil =>
    rcases hr with h | ⟨c, r2, rfl, hc⟩
    · subst h; rfl
    · simp [List.takeWhile_cons, hc]
  | cons c t ih =>
    rw [List.cons_append, List.takeWhile_cons]
    simp only [ht c (List.mem_cons_self c t), Bool.not_false, if_pos]
    rw [ih (fun x hx => ht x (List.mem_cons_of_mem c hx))]

theorem markerMatch_false_of_space {c : Char} (cs : List Char)
    (h : pySpace c = true) : markerMatch markerLower (c :: cs) = false := by
  rw [markerLower_eq]
  simp only [markerMatch, Bool.and_eq_false_iff, beq_eq_false_iff_ne, ne_eq]
  left
  rw [lowerChar_of_space h]
  intro hc
  subst hc
  simp [pySpace] at h

theorem searchSubprogram_cons_space {c : Char} {cs : List Char}
    (h : pySpace c = true) :
    searchSubprogram (c :: cs) = searchSubprogram cs := by
  simp only [searchSubprogram, markerMatch_false_of_space cs h,
    Bool.false_eq_true, if_false]

theorem searchSubprogram_at_marker {m rest : List Char}
    (hm : m.map lowerChar = markerLower) :
    searchSubprogram (m ++ rest) =
      match List.dropWhile pySpace rest with
      | [] => searchSubprogram (List.tail (m ++ rest))
      | t :: ts => some (List.takeWhile (fun x => !pySpace x) (t :: ts)) := by
  have hlen : m.length = markerLower.length := length_of_map_markerLower hm
  have hm0 : m ≠ [] := by
    intro h
    rw [h] at hlen
    rw [markerLower_eq] at hlen
    simp at hlen
  obtain ⟨a, m', rfl⟩ := List.exists_cons_of_ne_nil hm0
  rw [List.cons_append]
  simp only [searchSubprogram]
  rw [show (a :: (m' ++ rest)) = (a :: m') ++ rest from
      (List.cons_append a m' rest).symm,
    markerMatch_of_map hm rest, ← hlen, List.drop_left, if_pos rfl]
  rfl

theorem dropWhile_head_false {α : Type} {p : α → Bool} {l : List α} {b : α}
    {bs : List α} (h : l.dropWhile p = b :: bs) : p b = false := by
  induction l with
  | nil => simp at h
  | cons a l ih =>
    rw [List.dropWhile_cons] at h
    cases hpa : p a with
    | true => rw [hpa] at h; simp only [if_pos] at h; exact ih h
    | false =>
      rw [hpa] at h
      simp only [Bool.false_eq_true, if_false, List.cons.injEq] at h
      rw [← h.1]
      exact hpa

theorem markerTokenOccurs_cons {c : Char} {cs : List Char}
    (h : markerTokenOccurs cs) : markerTokenOccurs (c :: cs) := by
  obtain ⟨p, m, q, rfl, hm, hq⟩ := h
  exact ⟨c :: p, m, q, by simp, hm, hq⟩

theorem markerTokenOccurs_of_some {l n : List Char}
    (h : searchSubprogram l = some n) : markerTokenOccurs l := by
  induction l with
  | nil => simp [searchSubprogram] at h
  | cons c cs ih =>
    simp only [searchSubprogram] at h
    by_cases hb : markerMatch markerLower (c :: cs) = true
    · rw [if_pos hb] at h
      obtain ⟨m, r, hl, hm⟩ := markerMatch_decomp hb
      have hlen := length_of_map_markerLower hm
      rw [hl, ← hlen, List.drop_left] at h
      cases hd : List.dropWhile pySpace r with
      | nil => rw [hd] at h; exact markerTokenOccurs_cons (ih h)
      | cons t ts =>
        exact ⟨[], m, r, by rw [hl]; rfl, hm, by rw [hd]; simp⟩
    · rw [if_neg hb] at h
      exact markerTokenOccurs_cons (ih h)

theorem isSome_of_markerTokenOccurs {l : List Char}
    (h : markerTokenOccurs l) : (searchSubprogram l).isSome = true := by
  obtain ⟨p, m, q, rfl, hm, hq⟩ := h
  induction p with
  | nil =>
    rw [List.nil_append, searchSubprogram_at_marker hm]
    cases hd : List.dropWhile pySpace q with
    | nil => exact absurd hd hq
    | cons t ts => rfl
  | cons a p ih =>
    rw [List.cons_append]
    simp only [searchSubprogram]
    split
    · split
      · exact ih
      · rfl
    · exact ih

theorem token_shape_of_some {l n : List Char}
    (h : searchSubprogram l = some n) :
    n ≠ [] ∧ ∀ c ∈ n, pySpace c = false := by
  induction l with
  | nil => simp [searchSubprogram] at h
  | cons c cs ih =>
    simp only [searchSubprogram] at h
    by_cases hb : markerMatch markerLower (c :: cs) = true
    · rw [if_pos hb] at h
      cases hd : List.dropWhile pySpace
          (List.drop markerLower.length (c :: cs)) with
      | nil => rw [hd] at h; exact ih h
      | cons t ts =>
        rw [hd] at h
        have hn := Option.some.inj h
        subst hn
        have ht : pySpace t = false := dropWhile_head_false hd
        constructor
        · rw [List.takeWhile_cons]
          simp [ht]
        · intro x hx
          have hx2 := List.mem_takeWhile_imp hx
          simpa using hx2
    · rw [if_neg hb] at h
      exact ih h

theorem extractFunctionNamesAux_eq (ls : List (List Char)) :
    ∀ acc, extractFunctionNamesAux acc ls =
      acc ++ ls.filterMap searchSubprogram := by
  induction ls with
  | nil => intro acc; simp [extractFunctionNamesAux]
  | cons l ls ih =>
    intro acc
    cases h : searchSubprogram l with
    | some n => simp [extractFunctionNamesAux, h, ih, List.filterMap_cons]
    | none => simp [extractFunctionNamesAux, h, ih, List.filterMap_cons]

/-! ### The working directory and `_extract_function_names` as a whole

`_extract_function_names` (lines 193-211) opens `<ENV>.tst`, writes its
content to the scratch copy `<ENV>_copy.tst`, reopens the copy and scans
it line by line.  A missing source file raises `FileNotFoundError`,
caught at line 213 and turned into `sys.exit(1)`.  The working directory
is embedded as an association list from file names to decoded text. -/

/-- A working directory: file names paired with decoded file contents. -/
def FS : Type := List (String × List Char)

/-- Reading a file: the content stored under the first matching name. -/
def fsRead (n : String) : FS → Option (List Char)
  | [] => none
  | (k, v) :: rest => if k = n then some v else fsRead n rest

/-- Removing a file entry, used by `fsWrite` to overwrite. -/
def fsErase (n : String) : FS → FS
  | [] => []
  | (k, v) :: rest => if k = n then fsErase n rest else (k, v) :: fsErase n rest

/-- `open(name, 'w')` followed by writing `v`: the file now holds `v`,
every other file is untouched. -/
def fsWrite (n : String) (v : List Char) (fs : FS) : FS :=
  (n, v) :: fsErase n fs

/-- Splitting decoded file content into lines the way Python's line
iteration does, each line keeping its trailing newline. -/
def splitLinesAux (cur : List Char) : List Char → List (List Char)
  | [] => if cur = [] then [] else [cur.reverse]
  | c :: cs =>
    if c = '\n' then (cur.reverse ++ ['\n']) :: splitLinesAux [] cs
    else splitLinesAux (c :: cur) cs

/-- Content of a text file as the list of its lines. -/
def splitLines (content : List Char) : List (List Char) :=
  splitLinesAux [] content

/-- The one error `_extract_function_names` reports: the source test
script is missing (`FileNotFoundError`, lines 213-215, ends the run with
`sys.exit(1)`). -/
inductive ExtractError where
  | fileNotFound
deriving DecidableEq

/-- Embedding of `_extract_function_names` (lines 180-218) including its
file handling: read `<ENV>.tst`; write its content to `<ENV>_copy.tst`;
reopen the copy and collect every line's regex capture.  The returned
pair is the working directory afterwards and either the extracted names
or the error that terminated the run. -/
def runExtractFunctionNames (env : String) (fs : FS) :
    FS × Except ExtractError (List (List Char)) :=
  match fsRead (env ++ ".tst") fs with
  | none => (fs, Except.error ExtractError.fileNotFound)
  | some content =>
    match fsRead (env ++ "_copy.tst") (fsWrite (env ++ "_copy.tst") content fs) with
    | none => (fsWrite (env ++ "_copy.tst") content fs,
        Except.error ExtractError.fileNotFound)
    | some c => (fsWrite (env ++ "_copy.tst") content fs,
        Except.ok (extractFunctionNames (splitLines c)))

theorem fsRead_write_same (n : String) (v : List Char) (fs : FS) :
    fsRead n (fsWrite n v fs) = some v := by
  simp [fsWrite, fsRead]

theorem fsRead_erase_other {f n : String} (h : f ≠ n) (fs : FS) :
    fsRead f (fsErase n fs) = fsRead f fs := by
  induction fs with
  | nil => rfl
  | cons kv rest ih =>
    obtain ⟨k, v⟩ := kv
    by_cases hk : k = n
    · subst hk
      rw [fsErase, if_pos rfl, ih, fsRead, if_neg (fun hkf => h hkf.symm)]
    · rw [fsErase, if_neg hk]
      by_cases hkf : k = f
      · subst hkf
        rw [fsRead, if_pos rfl, fsRead, if_pos rfl]
      · rw [fsRead, if_neg hkf, fsRead, if_neg hkf, ih]

theorem fsRead_write_other {f n : String} (h : f ≠ n) (v : List Char)
    (fs : FS) : fsRead f (fsWrite n v fs) = fsRead f fs := by
  rw [fsWrite, fsRead, if_neg (fun hnf => h hnf.symm), fsRead_erase_other h]

/-! ### Tolerant byte decoding

The two reads in `_extract_function_names` use
`open(..., encoding='utf-8', errors='ignore')` (lines 195 and 201): a
byte sequence that is not valid UTF-8 at the current position is
dropped, decoding resumes at the next byte that was not consumed, and
the read never fails. -/

/-- Lower bound of the second byte of a multi-byte sequence. -/
def utf8SecondLo (b : Nat) : Nat :=
  if b = 224 then 160 else if b = 240 then 144 else 128

/-- Upper bound of the second byte of a multi-byte sequence. -/
def utf8SecondHi (b : Nat) : Nat :=
  if b = 237 then 159 else if b = 244 then 143 else 191

/-- UTF-8 decoding with the `ignore` error handler: on an invalid start
byte, skip it; on an invalid continuation byte, skip the consumed part
of the sequence and resume at the offending byte; drop a sequence
truncated by the end of input. -/
def decodeUtf8Ignore : List Nat → List Char
  | [] => []
  | b :: bs =>
    if b < 128 then Char.ofNat b :: decodeUtf8Ignore bs
    else if 194 ≤ b ∧ b ≤ 223 then
      match bs with
      | [] => []
      | b2 :: bs2 =>
        if 128 ≤ b2 ∧ b2 ≤ 191 then
          Char.ofNat ((b - 192) * 64 + (b2 - 128)) :: decodeUtf8Ignore bs2
        else decodeUtf8Ignore (b2 :: bs2)
    else if 224 ≤ b ∧ b ≤ 239 then
      match bs with
      | [] => []
      | b2 :: bs2 =>
        if utf8SecondLo b ≤ b2 ∧ b2 ≤ utf8SecondHi b then
          match bs2 with
          | [] => []
          | b3 :: bs3 =>
            if 128 ≤ b3 ∧ b3 ≤ 191 then
              Char.ofNat ((b - 224) * 4096 + (b2 - 128) * 64 + (b3 - 128)) ::
                decodeUtf8Ignore bs3
            else decodeUtf8Ignore (b3 :: bs3)
        else decodeUtf8Ignore (b2 :: bs2)
    else if 240 ≤ b ∧ b ≤ 244 then
      match bs with
      | [] => []
      | b2 :: bs2 =>
        if utf8SecondLo b ≤ b2 ∧ b2 ≤ utf8SecondHi b then
          match bs2 with
          | [] => []
          | b3 :: bs3 =>
            if 128 ≤ b3 ∧ b3 ≤ 191 then
              match bs3 with
              | [] => []
              | b4 :: bs4 =>
                if 128 ≤ b4 ∧ b4 ≤ 191 then
                  Char.ofNat ((b - 240) * 262144 + (b2 - 128) * 4096 +
                      (b3 - 128) * 64 + (b4 - 128)) :: decodeUtf8Ignore bs4
                else decodeUtf8Ignore (b4 :: bs4)
            else decodeUtf8Ignore (b3 :: bs3)
        else decodeUtf8Ignore (b2 :: bs2)
    else decodeUtf8Ignore bs
termination_by bs => bs.length
decreasing_by all_goals simp_wf <;> omega

/-- A byte that can never start a UTF-8 sequence: a stray continuation
byte, an overlong-encoding start byte, or a byte past the Unicode
range.  Decoding with the `ignore` handler always skips it. -/
def invalidStartByte (b : Nat) : Prop := (128 ≤ b ∧ b ≤ 193) ∨ 245 ≤ b

/-- Reading and scanning a test-script file straight from its bytes:
decode tolerantly, split into lines, extract the subprogram names. -/
def extractNamesFromBytes (bs : List Nat) : List (List Char) :=
  extractFunctionNames (splitLines (decodeUtf8Ignore bs))

theorem decodeUtf8Ignore_ascii_append {pre : List Nat}
    (h : ∀ x ∈ pre, x < 128) (rest : List Nat) :
    decodeUtf8Ignore (pre ++ rest) =
      pre.map Char.ofNat ++ decodeUtf8Ignore rest := by
  induction pre with
  | nil => rfl
  | cons b bs ih =>
    have hb : b < 128 := h b (List.mem_cons_self b bs)
    rw [List.cons_append, decodeUtf8Ignore.eq_def]
    simp only []
    rw [if_pos hb, List.map_cons, List.cons_append,
      ih (fun x hx => h x (List.mem_cons_of_mem b hx))]

theorem decodeUtf8Ignore_skips_invalid {bad : List Nat}
    (h : ∀ x ∈ bad, invalidStartByte x) (rest : List Nat) :
    decodeUtf8Ignore (bad ++ rest) = decodeUtf8Ignore rest := by
  induction bad with
  | nil => rfl
  | cons b bs ih =>
    have hb : invalidStartByte b := h b (List.mem_cons_self b bs)
    rcases hb with hb | hb
    all_goals
      rw [List.cons_append, decodeUtf8Ignore.eq_def]
      simp only []
      rw [if_neg (by omega), if_neg (by omega), if_neg (by omega),
        if_neg (by omega), ih (fun x hx => h x (List.mem_cons_of_mem b hx))]

/-! ### The post-generation file moves

After each successful external command the script files the produced
artifact.  `_generate_main_test_script` copies `<ENV>.tst` into
`Results/` with a bare `shutil.copy` (line 163, not guarded by any
`try`), so a failure there propagates out of the method and ends the
run via the `except Exception` handler in `run` (lines 351-354).
`_generate_individual_test_scripts` (lines 240-245) and
`_organize_results` (lines 276-282) wrap each `shutil.move` in
`try/except` and only print a warning on failure.  The outcome of each
copy/move is abstracted as a boolean oracle. -/

/-- Which file operations succeed, per source file name and target
directory. -/
structure FileOps where
  copyOk : String → String → Bool
  moveOk : String → String → Bool

/-- Target directory of the per-function scripts
(`DIRECTORIES['unit_tests']`). -/
def unitTstDir : String := "Unit_Tst"

/-- Target directory of the master script copy and the reports
(`DIRECTORIES['results']`). -/
def resultsDir : String := "Results"

/-- Report file suffixes in `REPORT_TYPES` order. -/
def reportSuffixes : List String :=
  ["_Testcase_Management_Report.html", "_Execution_Results_Report.html",
   "_Full_Report.html"]

/-- The tail of `_generate_main_test_script` after its CLI command
succeeded: the unguarded `shutil.copy(test_script_name, 'Results')` of
line 163.  A failure is an uncaught exception. -/
def mainScriptCopyStep (ops : FileOps) (env : String) : Except String Unit :=
  if ops.copyOk (env ++ ".tst") resultsDir then Except.ok ()
  else Except.error (env ++ ".tst")

/-- The move loop of `_generate_individual_test_scripts` with every CLI
command already successful: each `shutil.move` failure only produces a
warning message (lines 241-245); the loop always runs to completion. -/
def individualMoveWarnings (ops : FileOps) (names : List (List Char)) :
    List String :=
  names.filterMap (fun n =>
    if ops.moveOk (String.mk n ++ ".tst") unitTstDir then none
    else some (String.mk n ++ ".tst"))

/-- The move loop of `_organize_results`: each report move failure only
produces a warning message (lines 278-282). -/
def organizeResultsWarnings (ops : FileOps) (module : String) : List String :=
  reportSuffixes.filterMap (fun suf =>
    if ops.moveOk (module ++ suf) resultsDir then none
    else some (module ++ suf))

/-- The run's file-organisation phase with all external commands
successful: the unguarded main-script copy first, then the two
best-effort move loops, collecting their warnings.  An error propagates
to `run`'s generic handler, which exits with status 1. -/
def filesPhase (ops : FileOps) (env module : String)
    (names : List (List Char)) : Except String (List String) :=
  match mainScriptCopyStep ops env with
  | Except.error e => Except.error e
  | Except.ok _ =>
    Except.ok (individualMoveWarnings ops names ++
      organizeResultsWarnings ops module)

instance : DecidablePred invalidStartByte := fun b =>
  decidable_of_iff ((128 ≤ b ∧ b ≤ 193) ∨ 245 ≤ b) Iff.rfl

/-- A one-file working directory holding the master test script. -/
def demoFS : FS := [("DEMO.tst", "-- Subprogram: Add\n".data)]

/-- File operations that all fail. -/
def opsAllFail : FileOps := ⟨fun _ _ => false, fun _ _ => false⟩

/-- File operations where every copy succeeds and every move fails. -/
def opsMovesFail : FileOps := ⟨fun _ _ => true, fun _ _ => false⟩

/-- Sample file bytes: ASCII text before an undecodable byte. -/
def demoBytes1 : List Nat := "-- Subprogram: A".data.map Char.toNat

/-- Sample file bytes: ASCII text after an undecodable byte. -/
def demoBytes2 : List Nat := "dd\n-- Subprogram: Sub\n".data.map Char.toNat

/-! ### The claims -/

/-- C1 (counterexample): the claim says a line whose marker is preceded
by non-whitespace text, or whose marker is not separated from the token
by whitespace, contributes nothing.  The code's `re.search` matches the
marker anywhere in the line, and the pattern's `\s*` after the colon
makes the separator optional, so both such lines do yield a name. -/
theorem searchSubprogram_embedded_marker_matches :
    searchSubprogram ("xxx-- Subprogram: foo".data) = some ("foo".data) ∧
    searchSubprogram ("-- Subprogram:foo".data) = some ("foo".data) := by
  decide

/-- C1 (amended): extraction yields a subprogram name from a line
exactly when the line contains the marker `-- Subprogram:`
(case-insensitively) anywhere, followed by optional whitespace and at
least one non-whitespace character; text before the marker is allowed
and no whitespace is required between the colon and the token. -/
theorem searchSubprogram_isSome_iff (l : List Char) :
    (searchSubprogram l).isSome = true ↔ markerTokenOccurs l := by
  constructor
  · intro h
    cases hs : searchSubprogram l with
    | none => rw [hs] at h; simp at h
    | some n => exact markerTokenOccurs_of_some hs
  · exact isSome_of_markerTokenOccurs

theorem searchSubprogram_isSome_iff_instance :
    markerTokenOccurs ("   -- SUBPROGRAM: calcTotal".data) :=
  (searchSubprogram_isSome_iff ("   -- SUBPROGRAM: calcTotal".data)).mp
    (by decide)

/-- C2: extraction is the order-preserving, duplicate-retaining
`filterMap` of the per-line search over the file's lines; a file with no
matching line yields the empty sequence, and the `Bar`, `Foo`, `Bar`
file yields exactly that sequence. -/
theorem extractFunctionNames_order :
    (∀ ls, extractFunctionNames ls = ls.filterMap searchSubprogram) ∧
    (∀ ls, (∀ l ∈ ls, searchSubprogram l = none) →
      extractFunctionNames ls = []) ∧
    extractFunctionNames ["-- Subprogram: Bar\n".data, "no match\n".data,
        "-- Subprogram: Foo\n".data, "-- Subprogram: Bar\n".data] =
      ["Bar".data, "Foo".data, "Bar".data] := by
  refine ⟨fun ls => ?_, fun ls h => ?_, by decide⟩
  · rw [extractFunctionNames, extractFunctionNamesAux_eq, List.nil_append]
  · rw [extractFunctionNames, extractFunctionNamesAux_eq, List.nil_append,
      List.filterMap_eq_nil_iff.mpr h]

theorem extractFunctionNames_order_instance :
    extractFunctionNames ["no match here\n".data] = [] :=
  extractFunctionNames_order.2.1 ["no match here\n".data] (by decide)

/-- C3: matching of the marker text is case-insensitive while the
captured name's case is preserved verbatim: any line made of
whitespace, a case-variant of the marker, whitespace, and a token is
mapped to exactly that token. -/
theorem searchSubprogram_case_insensitive
    (w m s t r : List Char)
    (hw : ∀ c ∈ w, pySpace c = true)
    (hm : m.map lowerChar = markerLower)
    (hs : ∀ c ∈ s, pySpace c = true)
    (ht0 : t ≠ []) (ht : ∀ c ∈ t, pySpace c = false)
    (hr : r = [] ∨ ∃ c r2, r = c :: r2 ∧ pySpace c = true) :
    searchSubprogram (w ++ (m ++ (s ++ (t ++ r)))) = some t := by
  induction w with
  | nil =>
    obtain ⟨a, t2, rfl⟩ := List.exists_cons_of_ne_nil ht0
    rw [List.nil_append, searchSubprogram_at_marker hm]
    have hd : List.dropWhile pySpace (s ++ ((a :: t2) ++ r)) =
        a :: (t2 ++ r) := by
      rw [dropWhile_append_all hs, List.cons_append, List.dropWhile_cons]
      simp [ht a (List.mem_cons_self a t2)]
    rw [hd]
    show some (List.takeWhile (fun x => !pySpace x) (a :: (t2 ++ r))) =
      some (a :: t2)
    rw [← List.cons_append, takeWhile_token ht hr]
  | cons c w ih =>
    rw [List.cons_append,
      searchSubprogram_cons_space (hw c (List.mem_cons_self c w))]
    exact ih (fun x hx => hw x (List.mem_cons_of_mem c hx))

theorem searchSubprogram_case_insensitive_instance :
    searchSubprogram ("   ".data ++ ("-- SUBPROGRAM:".data ++ (" ".data ++
      ("calcTotal".data ++ ([] : List Char))))) = some ("calcTotal".data) :=
  searchSubprogram_case_insensitive _ _ _ _ _ (by decide) (by decide)
    (by decide) (by decide) (by decide) (Or.inl rfl)

/-- C4 (counterexample): extraction is claimed to leave the filesystem
unchanged, but `_extract_function_names` writes the scratch copy
`<ENV>_copy.tst` (lines 195-198): after a run on `demoFS` the copy file
exists even though it did not before. -/
theorem runExtract_creates_copy :
    fsRead "DEMO_copy.tst" demoFS = none ∧
    fsRead "DEMO_copy.tst" (runExtractFunctionNames "DEMO" demoFS).1 =
      some ("-- Subprogram: Add\n".data) := by
  decide

/-- C4 (amended): the only filesystem change made by extraction is
writing the scratch copy `<ENV>_copy.tst` with the source's content;
every other file is untouched and the returned names are the scan of
that content. -/
theorem runExtract_frame (env : String) (fs : FS) (content : List Char)
    (h : fsRead (env ++ ".tst") fs = some content) :
    (runExtractFunctionNames env fs).1 =
      fsWrite (env ++ "_copy.tst") content fs ∧
    (runExtractFunctionNames env fs).2 =
      Except.ok (extractFunctionNames (splitLines content)) ∧
    ∀ f, f ≠ env ++ "_copy.tst" →
      fsRead f (runExtractFunctionNames env fs).1 = fsRead f fs := by
  have hc : fsRead (env ++ "_copy.tst")
      (fsWrite (env ++ "_copy.tst") content fs) = some content :=
    fsRead_write_same ..
  simp only [runExtractFunctionNames, h, hc]
  exact ⟨trivial, trivial, fun f hf => fsRead_write_other hf content fs⟩

theorem runExtract_frame_instance :
    (runExtractFunctionNames "DEMO" demoFS).1 =
      fsWrite ("DEMO" ++ "_copy.tst") ("-- Subprogram: Add\n".data) demoFS :=
  (runExtract_frame "DEMO" demoFS ("-- Subprogram: Add\n".data) (by decide)).1

/-- C5: extraction on a working directory without the source test
script fails with the file-not-found error (which the code turns into
`sys.exit(1)`) and leaves the filesystem exactly as it was, so no
output and in particular no scratch copy is created. -/
theorem runExtract_missing_source (env : String) (fs : FS)
    (h : fsRead (env ++ ".tst") fs = none) :
    runExtractFunctionNames env fs =
      (fs, Except.error ExtractError.fileNotFound) := by
  simp only [runExtractFunctionNames, h]

theorem runExtract_missing_source_instance :
    runExtractFunctionNames "DEMO" [] =
      ([], Except.error ExtractError.fileNotFound) :=
  runExtract_missing_source "DEMO" [] rfl

/-- C6: lines carrying the marker but no following token are uniformly
skipped: any line with no marker-plus-token occurrence yields nothing,
and in particular a line that is whitespace, a case-variant of the
marker, and trailing whitespace yields nothing. -/
theorem searchSubprogram_no_token_skipped :
    (∀ l, ¬ markerTokenOccurs l → searchSubprogram l = none) ∧
    (∀ w m s, (∀ c ∈ w, pySpace c = true) → m.map lowerChar = markerLower →
      (∀ c ∈ s, pySpace c = true) → searchSubprogram (w ++ (m ++ s)) = none) := by
  have h1 : ∀ l, ¬ markerTokenOccurs l → searchSubprogram l = none := by
    intro l h
    cases hs : searchSubprogram l with
    | none => rfl
    | some n => exact absurd (markerTokenOccurs_of_some hs) h
  refine ⟨h1, fun w m s hw hm hs => h1 _ ?_⟩
  rintro ⟨p, m2, q, hl, hm2, hq⟩
  have hcount : ∀ u : List Char, (∀ c ∈ u, pySpace c = true) →
      u.countP (fun c => !pySpace c) = 0 := fun u hu =>
    List.countP_eq_zero.mpr (by intro a ha; simp [hu a ha])
  have hmc : ∀ mm : List Char, mm.map lowerChar = markerLower →
      mm.countP (fun c => !pySpace c) = 13 := by
    intro mm hmm
    have h2 : (mm.map lowerChar).countP (fun c => !pySpace c) =
        mm.countP (fun c => !pySpace c) := by
      rw [List.countP_map]
      apply List.countP_congr
      intro a _
      simp [Function.comp, pySpace_lowerChar]
    rw [hmm] at h2
    rw [← h2, markerLower_eq]
    decide
  have hex : ∃ a ∈ q, (fun c => !pySpace c) a = true := by
    by_contra hno
    push_neg at hno
    apply hq
    apply List.dropWhile_eq_nil_iff.mpr
    intro x hx
    have h3 := hno x hx
    simpa using h3
  have hq1 : 0 < q.countP (fun c => !pySpace c) :=
    List.countP_pos_iff.mpr hex
  have e1 : (w ++ (m ++ s)).countP (fun c => !pySpace c) = 13 := by
    rw [List.countP_append, List.countP_append, hcount w hw, hcount s hs,
      hmc m hm]
  rw [hl, List.countP_append, List.countP_append, hmc m2 hm2] at e1
  omega

theorem searchSubprogram_no_token_skipped_instance :
    searchSubprogram (([] : List Char) ++ ("-- Subprogram:".data ++
      "  ".data)) = none :=
  searchSubprogram_no_token_skipped.2 [] ("-- Subprogram:".data) ("  ".data)
    (by decide) (by decide) (by decide)

/-- C7: byte sequences that can never start a valid UTF-8 sequence are
skipped by the tolerant reader, and extraction still returns the names
of all remaining decodable lines instead of aborting. -/
theorem decode_skips_undecodable (pre bad post : List Nat)
    (hpre : ∀ x ∈ pre, x < 128) (hbad : ∀ x ∈ bad, invalidStartByte x) :
    decodeUtf8Ignore (pre ++ bad ++ post) = decodeUtf8Ignore (pre ++ post) ∧
    extractNamesFromBytes (pre ++ bad ++ post) =
      extractNamesFromBytes (pre ++ post) := by
  have h1 : decodeUtf8Ignore (pre ++ bad ++ post) =
      decodeUtf8Ignore (pre ++ post) := by
    rw [List.append_assoc, decodeUtf8Ignore_ascii_append hpre,
      decodeUtf8Ignore_skips_invalid hbad,
      ← decodeUtf8Ignore_ascii_append hpre]
  exact ⟨h1, by rw [extractNamesFromBytes, extractNamesFromBytes, h1]⟩

theorem decode_skips_undecodable_instance :
    decodeUtf8Ignore (demoBytes1 ++ [255] ++ demoBytes2) =
      decodeUtf8Ignore (demoBytes1 ++ demoBytes2) ∧
    extractNamesFromBytes (demoBytes1 ++ [255] ++ demoBytes2) =
      extractNamesFromBytes (demoBytes1 ++ demoBytes2) :=
  decode_skips_undecodable demoBytes1 [255] demoBytes2 (by decide) (by decide)

/-- C8 (counterexample): the claim says every post-generation copy or
move failure is a logged warning that leaves the run successful, but
the `shutil.copy` of the master script (line 163) is unguarded: when it
fails, the file phase ends in an error, which `run` turns into
`sys.exit(1)`. -/
theorem filesPhase_copy_failure_aborts :
    filesPhase opsAllFail "DEMO" "demo" ["Add".data] =
      Except.error ("DEMO" ++ ".tst") := rfl

/-- C8 (amended): the per-function script moves and the report moves
are best-effort — every failure becomes a warning and the phase still
succeeds — while a failure of the master-script copy to `Results/`
aborts the phase with an error. -/
theorem filesPhase_moves_best_effort (ops : FileOps) (env modName : String)
    (names : List (List Char)) :
    (ops.copyOk (env ++ ".tst") resultsDir = true →
      filesPhase ops env modName names =
        Except.ok (individualMoveWarnings ops names ++
          organizeResultsWarnings ops modName)) ∧
    (ops.copyOk (env ++ ".tst") resultsDir = false →
      filesPhase ops env modName names = Except.error (env ++ ".tst")) := by
  constructor <;> intro h <;>
    simp [filesPhase, mainScriptCopyStep, h]

theorem filesPhase_moves_best_effort_instance :
    filesPhase opsMovesFail "DEMO" "demo" ["Add".data] =
      Except.ok (individualMoveWarnings opsMovesFail ["Add".data] ++
        organizeResultsWarnings opsMovesFail "demo") :=
  (filesPhase_moves_best_effort opsMovesFail "DEMO" "demo" ["Add".data]).1 rfl

/-- C9: every extracted subprogram name is a non-empty string with no
whitespace character in it. -/
theorem searchSubprogram_token_wellformed (l n : List Char)
    (h : searchSubprogram l = some n) :
    n ≠ [] ∧ ∀ c ∈ n, pySpace c = false :=
  token_shape_of_some h

theorem searchSubprogram_token_wellformed_instance :
    "Add".data ≠ [] ∧ ∀ c ∈ "Add".data, pySpace c = false :=
  searchSubprogram_token_wellformed ("-- Subprogram: Add".data) ("Add".data)
    (by decide)

/-- C10: each line contributes at most one name — the extracted
sequence is never longer than the file — and when the marker occurs
twice in one line only the token after the first occurrence is
captured. -/
theorem extractFunctionNames_at_most_one_per_line :
    (∀ ls, (extractFunctionNames ls).length ≤ ls.length) ∧
    searchSubprogram ("-- Subprogram: first -- Subprogram: second".data) =
      some ("first".data) := by
  refine ⟨fun ls => ?_, by decide⟩
  rw [extractFunctionNames, extractFunctionNamesAux_eq, List.nil_append]
  exact List.length_filterMap_le _ _
